import Mathlib

/-!
Shallow embedding of the `VecRng<T>` growable double-ended ring buffer
(src/src/lib.rs) and verification of its specification.

Machine-integer conventions: `usize`/`isize` are modelled on a 64-bit
target as `Nat`/`Int` with explicit reduction modulo `2^64` where the
Rust code can wrap.  Rust's `%` on `isize` is truncated remainder
(`Int.tmod`); `as usize` on an `isize` value is two's-complement
reinterpretation.  Arithmetic overflow of `+`/`-` on `isize` is modelled
with release-mode wrapping semantics; `usize` subtraction in the source
only occurs where the documented invariants make it non-underflowing, and
the corresponding theorems carry those invariants as hypotheses.
A Rust panic (here: remainder by zero, and `checked_add(..).unwrap()`)
is modelled by an `Option` result, `none` meaning the call panics.
-/

namespace VRng

/-- Number of values of `usize`/`isize` on the 64-bit target. -/
def WORD : Nat := 2 ^ 64

/-- Reinterpretation `x as usize` of an `isize` value: the
two's-complement bit pattern of `x` read as an unsigned 64-bit value. -/
def toUsize (x : Int) : Nat := (x % (WORD : Int)).toNat

/-- Release-mode wrapping of an integer into the `isize` range
`[-2^63, 2^63)`. -/
def wrapIsize (x : Int) : Int := (x + 2 ^ 63) % (WORD : Int) - 2 ^ 63

/-- Model of `VecRng<T>` (src/src/lib.rs, lines 14-26).  `buffer` is the
single backing allocation of `MaybeUninit<T>` slots, a slot being `none`
when uninitialized and `some v` when it holds the value `v`; the capacity
is `buffer.length`.  `hindex` is the physical index of the logical front
and `length` the number of live slots.  Layout (from the source comment):
`[ back | uninit | head ]` (wrapped) or `[ uninit | contig | uninit ]`
(non-wrapped). -/
structure VecRng (α : Type) where
  buffer : List (Option α)
  hindex : Nat
  length : Nat
deriving DecidableEq

variable {α : Type}

namespace VecRng

/-- Model of `VecRng::MINCAP` (lines 29-35), as a function of
`size_of::<T>()`. -/
def MINCAP (siz : Nat) : Nat :=
  if siz = 1 then 8 else if siz ≤ 1024 then 4 else 1

/-- Model of `VecRng::new` (lines 36-45): a dangling (zero-length)
allocation, `hindex = 0`, `length = 0`.  No storage is allocated. -/
def new : VecRng α := ⟨[], 0, 0⟩

/-- Model of `VecRng::lens` (lines 105-118): `(head_len, back_len)`.
`hcp = buffer.len() - hindex` is the room from `hindex` to the physical
end; if it is exceeded by `length` the occupied region wraps. -/
def lens (s : VecRng α) : Nat × Nat :=
  let hcp := s.buffer.length - s.hindex
  if hcp < s.length then (hcp, s.length - hcp) else (s.length, 0)

/-- Model of `ptr::copy_to_nonoverlapping`: the result of writing
`src[sOff + i]` into `dst[dOff + i]` for each `i < cnt`, leaving the
other slots of `dst` unchanged.  (Out-of-range reads, undefined behavior
in the source, read `none`; every use below is in range.) -/
def copyTo (src : List (Option α)) (sOff : Nat) (dst : List (Option α))
    (dOff cnt : Nat) : List (Option α) :=
  (List.range dst.length).map fun i =>
    if dOff ≤ i ∧ i < dOff + cnt then src.getD (sOff + (i - dOff)) none
    else dst.getD i none

/-- Model of `VecRng::grow` (lines 53-64): fresh uninitialized storage of
size `to_c`; the back run `buffer[0 .. bln)` is copied to `newbuf[hln ..)`
and the head run `buffer[hindex .. hindex + hln)` to `newbuf[0 ..)`;
`hindex` becomes `0`, `length` is untouched. -/
def grow (s : VecRng α) (to_c : Nat) : VecRng α :=
  let hb := s.lens
  let newbuf0 : List (Option α) := List.replicate to_c none
  let newbuf1 := copyTo s.buffer 0 newbuf0 hb.1 hb.2
  let newbuf2 := copyTo s.buffer s.hindex newbuf1 0 hb.1
  ⟨newbuf2, 0, s.length⟩

/-- Model of `VecRng::with_capacity` (lines 46-52): `new` grown to
`MINCAP.max(c)`. -/
def with_capacity (siz c : Nat) : VecRng α :=
  grow new (max (MINCAP siz) c)

/-- Model of `VecRng::reserve` (lines 65-74).
`addc.checked_add(length).unwrap()` panics (`none`) on `usize` overflow;
otherwise, if `to_c < ccap` the buffer is returned untouched, else it is
grown to `MINCAP.max(to_c).max(ccap << 1)` (the shift discards
overflowing bits). -/
def reserve (siz : Nat) (s : VecRng α) (addc : Nat) : Option (VecRng α) :=
  if WORD ≤ addc + s.length then none
  else
    let to_c := addc + s.length
    let ccap := s.buffer.length
    if to_c < ccap then some s
    else some (grow s (max (max (MINCAP siz) to_c) (ccap * 2 % WORD)))

/-- Model of `VecRng::back_init_change` (lines 101-104):
`length = (length as isize + n) as usize`, with release-mode wrapping. -/
def back_init_change (s : VecRng α) (n : Int) : VecRng α :=
  { s with length := toUsize (wrapIsize ((s.length : Int) + n)) }

/-- Model of `VecRng::head_init_change` (lines 82-93):
`hindex = ((hindex as isize - n) % buffer.len() as isize) as usize`
followed by `back_init_change(n)`.  Rust's `%` on `isize` is truncated
remainder (`Int.tmod`) and panics (`none`) when `buffer.len() == 0`. -/
def head_init_change (s : VecRng α) (n : Int) : Option (VecRng α) :=
  if s.buffer.length = 0 then none
  else some (back_init_change
    { s with hindex :=
        toUsize (Int.tmod (wrapIsize ((s.hindex : Int) - n))
          (s.buffer.length : Int)) } n)

/-- Model of `VecRng::as_ref` (lines 119-130) — `as_mut` (lines 131-142)
computes the same two spans: the head view `buffer[hindex .. hindex + hln)`
and the back view `buffer[0 .. bln)`, in logical order. -/
def as_ref (s : VecRng α) : List (Option α) × List (Option α) :=
  let hb := s.lens
  ((s.buffer.drop s.hindex).take hb.1, s.buffer.take hb.2)

/-- Model of `VecRng::spare_capacity_mut` (lines 144-159): with
`a = hindex + hln`, the free-back-gap span `buffer[a .. cap)` and the
free-head-gap span `buffer[bln .. hindex)`, in that order. -/
def spare_capacity_mut (s : VecRng α) :
    List (Option α) × List (Option α) :=
  let hb := s.lens
  let cap := s.buffer.length
  let a := s.hindex + hb.1
  ((s.buffer.drop a).take (cap - a),
   (s.buffer.drop hb.2).take (s.hindex - hb.2))

/-- Model of `Drop for VecRng` (lines 161-175): `drop_in_place` is
invoked on every element of the head view, then on every element of the
back view returned by `as_mut`.  This lists the physical slot indices
destructed, in order. -/
def dropOrder (s : VecRng α) : List Nat :=
  ((List.range (s.lens).1).map fun j => s.hindex + j)
    ++ List.range (s.lens).2

/-- The documented state invariant (spec §3): `length ≤ C`, and
`hindex < C` or (`C = 0` and `length = 0`). -/
def Invariant (s : VecRng α) : Prop :=
  s.length ≤ s.buffer.length ∧
    (s.hindex < s.buffer.length ∨ (s.buffer.length = 0 ∧ s.length = 0))

instance (s : VecRng α) : Decidable (Invariant s) := by
  unfold Invariant; infer_instance

end VecRng

open VecRng

/-- The physical index of the `j`-th logical live slot, `j < length`:
`(hindex + j) % capacity`.  This is the data model's description of the
live region (spec §3), against which the destructor's visit order is
compared. -/
def liveIndices (s : VecRng α) : List Nat :=
  (List.range s.length).map fun j => (s.hindex + j) % s.buffer.length

/-- A concrete state for C1: capacity 4, `hindex = 0`, `length = 0`,
all slots uninitialized.  The C1 precondition for `n = 2` holds:
`0 ≤ length + n = 2 ≤ 4` and `C > 0`. -/
def exC1 : VecRng Nat := ⟨List.replicate 4 none, 0, 0⟩

/-- A concrete state for C3: capacity 4 (element size 2, `MINCAP = 4`),
`length = 0`, `front = 0`. -/
def exC3 : VecRng Nat := ⟨List.replicate 4 none, 0, 0⟩

/-- A concrete state for C7: capacity 4, `hindex = 1`, `length = 1` —
a non-wrapped, non-empty buffer whose single live slot is index 1. -/
def exC7 : VecRng Nat := ⟨[none, some 7, none, none], 1, 1⟩

/-! Basic lemmas about the embedding. -/

theorem copyTo_length (src : List (Option α)) (sOff : Nat)
    (dst : List (Option α)) (dOff cnt : Nat) :
    (copyTo src sOff dst dOff cnt).length = dst.length := by
  simp [copyTo]

theorem copyTo_getElem? (src : List (Option α)) (sOff : Nat)
    (dst : List (Option α)) (dOff cnt : Nat) (i : Nat)
    (hi : i < dst.length) :
    (copyTo src sOff dst dOff cnt)[i]? =
      some (if dOff ≤ i ∧ i < dOff + cnt
            then src.getD (sOff + (i - dOff)) none
            else dst.getD i none) := by
  simp [copyTo, List.getElem?_map, List.getElem?_range hi]

theorem lens_sum (s : VecRng α) : (s.lens).1 + (s.lens).2 = s.length := by
  unfold VecRng.lens
  by_cases h : s.buffer.length - s.hindex < s.length
  · simp only [h, if_pos]
    omega
  · simp [h]

theorem lens_fst_le (s : VecRng α) :
    (s.lens).1 ≤ s.buffer.length - s.hindex := by
  unfold VecRng.lens
  by_cases hw : s.buffer.length - s.hindex < s.length
  · simp [hw]
  · simp only [hw, if_neg, not_false_iff]
    omega

theorem lens_snd_le (s : VecRng α) : (s.lens).2 ≤ s.length := by
  unfold VecRng.lens
  by_cases h : s.buffer.length - s.hindex < s.length <;> simp [h]

theorem lens_fst_eq (s : VecRng α) :
    (s.lens).1 = min s.length (s.buffer.length - s.hindex) := by
  unfold VecRng.lens
  by_cases hw : s.buffer.length - s.hindex < s.length <;> simp [hw] <;> omega

theorem lens_snd_le_hindex (s : VecRng α)
    (h : s.length ≤ s.buffer.length) : (s.lens).2 ≤ s.hindex := by
  unfold VecRng.lens
  by_cases hw : s.buffer.length - s.hindex < s.length <;> simp [hw]
  omega

theorem one_le_MINCAP (siz : Nat) : 1 ≤ MINCAP siz := by
  unfold VecRng.MINCAP
  split_ifs <;> omega

theorem grow_buffer_length (s : VecRng α) (to_c : Nat) :
    (grow s to_c).buffer.length = to_c := by
  simp [grow, copyTo_length]

theorem grow_buffer_getElem? (s : VecRng α) (to_c i : Nat)
    (hhi : s.hindex ≤ s.buffer.length) (hlen : s.length ≤ s.buffer.length)
    (hi : i < to_c) :
    (grow s to_c).buffer[i]? =
      if i < (s.lens).1 then s.buffer[s.hindex + i]?
      else if i < s.length then s.buffer[i - (s.lens).1]?
      else some none := by
  have h1le := lens_fst_le s
  have hsum := lens_sum s
  have hlb1 : i < (copyTo s.buffer 0 (List.replicate to_c (none : Option α))
      (s.lens).1 (s.lens).2).length := by
    rw [copyTo_length, List.length_replicate]; exact hi
  show (copyTo s.buffer s.hindex _ 0 (s.lens).1)[i]? = _
  rw [copyTo_getElem? _ _ _ _ _ _ hlb1]
  by_cases hc1 : i < (s.lens).1
  · have hib : s.hindex + i < s.buffer.length := by omega
    rw [if_pos ⟨Nat.zero_le i, by omega⟩, if_pos hc1, Nat.sub_zero,
      List.getD_eq_getElem s.buffer none hib,
      List.getElem?_eq_getElem hib]
  · rw [if_neg (by omega), if_neg hc1,
      List.getD_eq_getElem?_getD, copyTo_getElem? _ _ _ _ _ _
        (by rw [List.length_replicate]; exact hi)]
    by_cases hc2 : i < s.length
    · have hib : i - (s.lens).1 < s.buffer.length := by omega
      rw [if_pos ⟨by omega, by omega⟩, if_pos hc2, Nat.zero_add,
        List.getD_eq_getElem s.buffer none hib,
        List.getElem?_eq_getElem hib]
      rfl
    · rw [if_neg (by omega), if_neg hc2]
      have : (List.replicate to_c (none : Option α)).getD i none = none := by
        rw [List.getD_eq_getElem?_getD, List.getElem?_replicate]
        split <;> rfl
      rw [this]
      rfl

/-! Claim C1: `commit_front` and the signed remainder. -/

/-- C1: refuted by evaluation.  At `front = 0`, `C = 4`, `n = 2` (a
precondition-respecting prepend), `head_init_change` sets `hindex` to
`((0 - 2) tmod 4) as usize = 2^64 - 2`, which is not `(front - n) mod C`:
the mathematical value `(0 - 2) mod 4 = 2` lies in `[0, C)` but the code
produces `2^64 - 2 ≥ C`.  (`length` does become `length + n = 2`.) -/
theorem c1_head_init_change_neg_remainder :
    (head_init_change exC1 2).map VecRng.hindex = some (2 ^ 64 - 2)
    ∧ (head_init_change exC1 2).map VecRng.length = some 2
    ∧ ((0 : Int) - 2) % 4 = 2
    ∧ ¬ (2 ^ 64 - 2 < exC1.buffer.length) := by decide

/-! Claim C2: invariant preservation. -/

/-- C2: refuted by evaluation.  The two-call sequence
`with_capacity(4)` (for an element size of 2, so `MINCAP = 4` and the
capacity is 4) followed by `commit_front(2)` respects every stated
precondition (`0 ≤ 0 + 2 ≤ 4`, `C > 0`), yet the resulting state
violates the invariant `front < C ∨ (C = 0 ∧ length = 0)`:
`front = 2^64 - 2` with `C = 4`. -/
theorem c2_invariant_broken_by_commit_front :
    (head_init_change (with_capacity 2 4 : VecRng Nat) 2).map
      (fun t => decide (Invariant t)) = some false
    ∧ (head_init_change (with_capacity 2 4 : VecRng Nat) 2).map
        (fun t => (t.buffer.length, t.hindex, t.length))
      = some (4, 2 ^ 64 - 2, 2) := by decide

/-! Claim C8: `commit_front(0)` on a zero-capacity buffer. -/

/-- C8: refuted by evaluation.  On the capacity-0 buffer produced by
`new` (where `length = 0`, so the stated precondition
`0 ≤ length + n ≤ C` holds for `n = 0`), `head_init_change(0)`
unconditionally computes `(hindex as isize - 0) % 0`, a remainder by
zero, and panics (modelled as `none`) instead of completing normally. -/
theorem c8_commit_front_zero_panics :
    head_init_change (VecRng.new : VecRng Nat) 0 = none
    ∧ (VecRng.new : VecRng Nat).buffer.length = 0
    ∧ (VecRng.new : VecRng Nat).length = 0 := by decide

/-! Claim C10: the `new` constructor. -/

/-- C10: `new()` yields capacity 0, `front = 0`, `length = 0` with no
allocation; on it `lens` returns `(0, 0)` and both occupied views and
both free views are empty slices, none of the calls panicking (all the
view computations are total here). -/
theorem c10_new_zero_capacity_views :
    (VecRng.new : VecRng Nat).buffer.length = 0
    ∧ (VecRng.new : VecRng Nat).hindex = 0
    ∧ (VecRng.new : VecRng Nat).length = 0
    ∧ lens (VecRng.new : VecRng Nat) = (0, 0)
    ∧ as_ref (VecRng.new : VecRng Nat) = ([], [])
    ∧ spare_capacity_mut (VecRng.new : VecRng Nat) = ([], []) := by decide

/-! Claim C3: the `reserve` growth condition. -/

/-- C3 counterexample: with `C = 4`, `L = 0`, `k = 4` we have
`C - L = 4 ≥ k`, yet `reserve(4)` does not leave the buffer unchanged:
the code grows whenever `L + k ≥ C` (strictly `to_c < ccap` is required
to skip growth), so the capacity becomes
`max(MINCAP, L + k, 2C) = max(4, 4, 8) = 8`. -/
theorem c3_reserve_boundary_counterexample :
    exC3.buffer.length - exC3.length ≥ 4
    ∧ (reserve 2 exC3 4).map (fun t => t.buffer.length) = some 8
    ∧ reserve 2 exC3 4 ≠ some exC3 := by decide

/-- C3 (amended): confirmed.  Provided `L + k` does not overflow `usize`
and `2C` does not overflow (allocations never exceed `isize::MAX`),
`reserve(k)` leaves the buffer entirely unchanged exactly when
`L + k < C` (that is, `C - L > k`, strictly); otherwise it reallocates
and the new capacity is exactly `max(MINCAP, L + k, 2C)`, which always
differs from `C`. -/
theorem c3_amended_reserve_growth (siz : Nat) (s : VecRng α) (addc : Nat)
    (hof : addc + s.length < WORD)
    (hcap : 2 * s.buffer.length < WORD) :
    (addc + s.length < s.buffer.length → reserve siz s addc = some s)
    ∧ (s.buffer.length ≤ addc + s.length →
        (reserve siz s addc).map (fun t => t.buffer.length)
          = some (max (MINCAP siz) (max (s.length + addc) (2 * s.buffer.length)))
        ∧ (reserve siz s addc).map (fun t => t.buffer.length)
          ≠ some s.buffer.length) := by
  constructor
  · intro hlt
    unfold VecRng.reserve
    rw [if_neg (by omega), if_pos hlt]
  · intro hge
    have hm := one_le_MINCAP siz
    unfold VecRng.reserve
    rw [if_neg (by omega), if_neg (by omega)]
    rw [Nat.mod_eq_of_lt (by omega)]
    simp only [Option.map_some', grow_buffer_length, Option.some.injEq, ne_eq]
    omega

/-- C3 (amended) witness: the theorem instantiated on the capacity-4
state at `k = 0`, exercising the no-growth branch (`L + k = 0 < 4`). -/
theorem c3_amended_reserve_growth_witness :
    (0 + exC3.length < exC3.buffer.length → reserve 2 exC3 0 = some exC3)
    ∧ (exC3.buffer.length ≤ 0 + exC3.length →
        (reserve 2 exC3 0).map (fun t => t.buffer.length)
          = some (max (MINCAP 2) (max (exC3.length + 0) (2 * exC3.buffer.length)))
        ∧ (reserve 2 exC3 0).map (fun t => t.buffer.length)
          ≠ some exC3.buffer.length) :=
  c3_amended_reserve_growth 2 exC3 0 (by decide) (by decide)

/-! Claim C9: `with_capacity`. -/

/-- C9: confirmed.  `with_capacity(c)` returns an empty buffer
(`length = 0`, `front = 0`) of capacity exactly `max(MINCAP, c)`, where
`MINCAP` is `8` for one-byte elements and `1` for elements larger than
1024 bytes. -/
theorem c9_with_capacity_exact (siz c : Nat) :
    (with_capacity siz c : VecRng α).length = 0
    ∧ (with_capacity siz c : VecRng α).hindex = 0
    ∧ (with_capacity siz c : VecRng α).buffer.length = max (MINCAP siz) c
    ∧ MINCAP 1 = 8 ∧ MINCAP 1025 = 1 ∧ MINCAP (2 ^ 20) = 1 := by
  refine ⟨rfl, rfl, ?_, by decide, by decide, by decide⟩
  simp [with_capacity, grow_buffer_length]

/-! Claim C6: `lens` and the two occupied views. -/

/-- C6: confirmed.  With `front < C` (or `C = 0` and `length = 0`) and
`length ≤ C`, `lens` returns `(length, 0)` when `length ≤ C - front` and
`(C - front, length - (C - front))` otherwise, and the occupied views
have exactly those lengths, the head view reading `buffer[front + j]` at
position `j` and the back view reading `buffer[j]`, in logical order
head-run-then-back-run. -/
theorem c6_lens_views (s : VecRng α)
    (hfr : s.hindex < s.buffer.length ∨ (s.buffer.length = 0 ∧ s.length = 0))
    (hlen : s.length ≤ s.buffer.length) :
    s.lens = (if s.length ≤ s.buffer.length - s.hindex
              then (s.length, 0)
              else (s.buffer.length - s.hindex,
                    s.length - (s.buffer.length - s.hindex)))
    ∧ (as_ref s).1
        = (List.range (s.lens).1).map (fun j => s.buffer.getD (s.hindex + j) none)
    ∧ (as_ref s).2
        = (List.range (s.lens).2).map (fun j => s.buffer.getD j none) := by
  have h1le := lens_fst_le s
  have h2le := lens_snd_le s
  refine ⟨?_, ?_, ?_⟩
  · unfold VecRng.lens
    by_cases h : s.buffer.length - s.hindex < s.length
    · rw [if_pos h, if_neg (by omega)]
    · rw [if_neg h, if_pos (by omega)]
  · apply List.ext_getElem?
    intro i
    simp only [VecRng.as_ref, List.getElem?_map, List.getElem?_take]
    by_cases hi : i < (s.lens).1
    · have hib : s.hindex + i < s.buffer.length := by
        rcases hfr with h | ⟨h1, h2⟩ <;> omega
      rw [if_pos hi, List.getElem?_range hi, List.getElem?_drop,
        List.getElem?_eq_getElem hib, Option.map_some',
        List.getD_eq_getElem s.buffer none hib]
    · rw [if_neg hi,
        List.getElem?_eq_none (by simpa using not_lt.mp hi),
        Option.map_none']
  · apply List.ext_getElem?
    intro i
    simp only [VecRng.as_ref, List.getElem?_map, List.getElem?_take]
    by_cases hi : i < (s.lens).2
    · have hib : i < s.buffer.length := by omega
      rw [if_pos hi, List.getElem?_range hi,
        List.getElem?_eq_getElem hib, Option.map_some',
        List.getD_eq_getElem s.buffer none hib]
    · rw [if_neg hi,
        List.getElem?_eq_none (by simpa using not_lt.mp hi),
        Option.map_none']

/-- C6 witness: the theorem applied to the wrapped state of capacity 4,
`front = 2`, `length = 3` (head run `[2, 4)`, back run `[0, 1)`). -/
theorem c6_lens_views_witness :
    (⟨[some 5, none, some 3, some 4], 2, 3⟩ : VecRng Nat).lens
      = (if (3:Nat) ≤ 4 - 2 then ((3:Nat), (0:Nat)) else (4 - 2, 3 - (4 - 2)))
    ∧ (as_ref (⟨[some 5, none, some 3, some 4], 2, 3⟩ : VecRng Nat)).1
        = (List.range ((⟨[some 5, none, some 3, some 4], 2, 3⟩ : VecRng Nat).lens).1).map
            (fun j => [some 5, none, some 3, some 4].getD (2 + j) none)
    ∧ (as_ref (⟨[some 5, none, some 3, some 4], 2, 3⟩ : VecRng Nat)).2
        = (List.range ((⟨[some 5, none, some 3, some 4], 2, 3⟩ : VecRng Nat).lens).2).map
            (fun j => [some 5, none, some 3, some 4].getD j none) :=
  c6_lens_views ⟨[some 5, none, some 3, some 4], 2, 3⟩ (by decide) (by decide)

/-! Claim C7: when both free gaps are non-empty. -/

/-- C7 counterexample: on the state `exC7` both spans returned by
`spare_capacity_mut` are non-empty (the back gap `[2, 4)` and the head
gap `[0, 1)`), yet the layout is not wrapped
(`length = 1 ≤ C - front = 3`) and the buffer is not empty. -/
theorem c7_both_gaps_nonwrapped_counterexample :
    (spare_capacity_mut exC7).1 ≠ []
    ∧ (spare_capacity_mut exC7).2 ≠ []
    ∧ ¬ (exC7.buffer.length - exC7.hindex < exC7.length)
    ∧ exC7.length ≠ 0 := by decide

/-- C7 (amended): confirmed.  On an invariant-satisfying state, the two
spans of `spare_capacity_mut` are simultaneously non-empty only if the
layout is non-wrapped (`length ≤ C - front`) with `front ≠ 0` and
`front + length < C`; in particular never in the wrapped layout (there
the back-gap span is empty).  The spec's empty-buffer-with-nonzero-front
case is the `length = 0` instance of this condition. -/
theorem c7_amended_both_gaps_nonempty (s : VecRng α) (hinv : Invariant s)
    (h1 : (spare_capacity_mut s).1 ≠ [])
    (h2 : (spare_capacity_mut s).2 ≠ []) :
    s.length ≤ s.buffer.length - s.hindex
    ∧ s.hindex ≠ 0
    ∧ s.hindex + s.length < s.buffer.length := by
  obtain ⟨hlen, hfr⟩ := hinv
  have hp1 := List.length_pos.mpr h1
  have hp2 := List.length_pos.mpr h2
  simp only [VecRng.spare_capacity_mut, List.length_take, List.length_drop] at hp1 hp2
  by_cases hw : s.buffer.length - s.hindex < s.length
  · -- wrapped layout: the back-gap span is empty, contradiction
    exfalso
    have hhi : s.hindex < s.buffer.length := by
      rcases hfr with h | ⟨h3, h4⟩ <;> omega
    have hl : (s.lens).1 = s.buffer.length - s.hindex := by
      unfold VecRng.lens; rw [if_pos hw]
    rw [hl] at hp1
    omega
  · have hl1 : (s.lens).1 = s.length := by
      unfold VecRng.lens; rw [if_neg hw]
    have hl2 : (s.lens).2 = 0 := by
      unfold VecRng.lens; rw [if_neg hw]
    rw [hl1] at hp1
    rw [hl2] at hp2
    omega

/-- C7 (amended) witness: the theorem applied to the state of capacity 4,
`front = 1`, `length = 1`, where both free gaps are indeed non-empty. -/
theorem c7_amended_both_gaps_nonempty_witness :
    exC7.length ≤ exC7.buffer.length - exC7.hindex
    ∧ exC7.hindex ≠ 0
    ∧ exC7.hindex + exC7.length < exC7.buffer.length :=
  c7_amended_both_gaps_nonempty exC7 (by decide) (by decide) (by decide)

/-! Claim C4: growth is observationally transparent. -/

/-- C4: confirmed.  On an invariant-satisfying state with
`target ≥ length`, `grow(target)` produces `front = 0`, an unchanged
`length`, capacity exactly `target`, an empty back view, and a head view
at offset 0 equal to old-head-run ++ old-back-run — so the concatenation
of the occupied views (the logical sequence) is preserved and growth is
observationally transparent to readers of the occupied views. -/
theorem c4_grow_transparent (s : VecRng α) (to_c : Nat)
    (hinv : Invariant s) (hto : s.length ≤ to_c) :
    (grow s to_c).hindex = 0
    ∧ (grow s to_c).length = s.length
    ∧ (grow s to_c).buffer.length = to_c
    ∧ (as_ref (grow s to_c)).2 = []
    ∧ (as_ref (grow s to_c)).1 = (as_ref s).1 ++ (as_ref s).2
    ∧ (as_ref (grow s to_c)).1 ++ (as_ref (grow s to_c)).2
        = (as_ref s).1 ++ (as_ref s).2 := by
  obtain ⟨hlen, hfr⟩ := hinv
  have hcap := grow_buffer_length s to_c
  have hhg : (grow s to_c).hindex = 0 := rfl
  have hlg : (grow s to_c).length = s.length := rfl
  have hlens : (grow s to_c).lens = (s.length, 0) := by
    simp only [VecRng.lens, hcap, hhg, hlg, Nat.sub_zero]
    rw [if_neg (not_lt.mpr hto)]
  have hsnd : (as_ref (grow s to_c)).2 = [] := by
    simp only [VecRng.as_ref, hlens, List.take_zero]
  have hfst : (as_ref (grow s to_c)).1
      = (as_ref s).1 ++ (as_ref s).2 := by
    rcases hfr with hhi | ⟨hc0, hl0⟩
    · -- hindex < capacity
      have h1le := lens_fst_le s
      have hsum := lens_sum s
      have hA : ((s.buffer.drop s.hindex).take (s.lens).1).length
          = (s.lens).1 := by
        rw [List.length_take, List.length_drop]; omega
      simp only [VecRng.as_ref, hlens, hhg, hlg, List.drop_zero]
      apply List.ext_getElem?
      intro i
      rw [List.getElem?_take, List.getElem?_append, hA,
        List.getElem?_take]
      by_cases hc1 : i < (s.lens).1
      · rw [if_pos (by omega), if_pos hc1, if_pos hc1,
          grow_buffer_getElem? s to_c i (by omega) hlen (by omega),
          if_pos hc1, List.getElem?_drop]
      · rw [if_neg hc1, List.getElem?_take]
        by_cases hc2 : i < s.length
        · rw [if_pos hc2,
            grow_buffer_getElem? s to_c i (by omega) hlen (by omega),
            if_neg hc1, if_pos hc2, if_pos (by omega)]
        · rw [if_neg hc2, if_neg (by omega)]
    · -- capacity 0, length 0: everything is empty
      have hb : s.buffer = [] := List.length_eq_zero.mp hc0
      simp only [VecRng.as_ref, hlens, hl0, hb, List.take_zero,
        List.drop_nil, List.take_nil, List.append_nil]
  exact ⟨hhg, hlg, hcap, hsnd, hfst, by rw [hsnd, hfst, List.append_nil]⟩

/-- C4 witness: the theorem applied to the wrapped state of capacity 4,
`front = 2`, `length = 3` grown to capacity 8. -/
theorem c4_grow_transparent_witness :
    (grow (⟨[some 5, none, some 3, some 4], 2, 3⟩ : VecRng Nat) 8).hindex = 0
    ∧ (grow (⟨[some 5, none, some 3, some 4], 2, 3⟩ : VecRng Nat) 8).length
        = (⟨[some 5, none, some 3, some 4], 2, 3⟩ : VecRng Nat).length
    ∧ (grow (⟨[some 5, none, some 3, some 4], 2, 3⟩ : VecRng Nat) 8).buffer.length = 8
    ∧ (as_ref (grow (⟨[some 5, none, some 3, some 4], 2, 3⟩ : VecRng Nat) 8)).2 = []
    ∧ (as_ref (grow (⟨[some 5, none, some 3, some 4], 2, 3⟩ : VecRng Nat) 8)).1
        = (as_ref (⟨[some 5, none, some 3, some 4], 2, 3⟩ : VecRng Nat)).1
          ++ (as_ref (⟨[some 5, none, some 3, some 4], 2, 3⟩ : VecRng Nat)).2
    ∧ (as_ref (grow (⟨[some 5, none, some 3, some 4], 2, 3⟩ : VecRng Nat) 8)).1
        ++ (as_ref (grow (⟨[some 5, none, some 3, some 4], 2, 3⟩ : VecRng Nat) 8)).2
      = (as_ref (⟨[some 5, none, some 3, some 4], 2, 3⟩ : VecRng Nat)).1
        ++ (as_ref (⟨[some 5, none, some 3, some 4], 2, 3⟩ : VecRng Nat)).2 :=
  c4_grow_transparent ⟨[some 5, none, some 3, some 4], 2, 3⟩ 8
    (by decide) (by decide)

/-! Claim C5: teardown destructs each live slot exactly once. -/

/-- C5: confirmed.  On any invariant-satisfying state, `Drop` invokes the
element destructor on exactly `length` slots, visiting precisely the live
slots (head run, then back run) with no repetition — each live value is
destructed exactly once and no uninitialized slot is ever destructed. -/
theorem c5_drop_each_live_slot_exactly_once (s : VecRng α)
    (hinv : Invariant s) :
    (dropOrder s).length = s.length
    ∧ dropOrder s = liveIndices s
    ∧ (dropOrder s).Nodup := by
  obtain ⟨hlen, hfr⟩ := hinv
  have hsum := lens_sum s
  have h1le := lens_fst_le s
  have h1eq := lens_fst_eq s
  have h2h := lens_snd_le_hindex s hlen
  refine ⟨?_, ?_, ?_⟩
  · simp only [dropOrder, List.length_append, List.length_map,
      List.length_range]
    omega
  · apply List.ext_getElem?
    intro i
    simp only [dropOrder, liveIndices, List.getElem?_append,
      List.length_map, List.length_range, List.getElem?_map]
    by_cases hc1 : i < (s.lens).1
    · rw [if_pos hc1, List.getElem?_range hc1,
        List.getElem?_range (show i < s.length by omega)]
      simp only [Option.map_some', Option.some.injEq]
      rw [Nat.mod_eq_of_lt (by omega)]
    · rw [if_neg hc1]
      by_cases hc2 : i < s.length
      · rcases hfr with hhi | ⟨hc0, hl0⟩
        · rw [List.getElem?_range (show i - (s.lens).1 < (s.lens).2 by omega),
            List.getElem?_range hc2]
          simp only [Option.map_some', Option.some.injEq]
          rw [show s.hindex + i = s.buffer.length + (i - (s.lens).1) by omega,
            Nat.add_mod_left, Nat.mod_eq_of_lt (by omega)]
        · omega
      · rw [List.getElem?_eq_none (by simp only [List.length_range]; omega),
          List.getElem?_eq_none (by simp only [List.length_range]; omega),
          Option.map_none']
  · apply List.Nodup.append
    · exact (List.nodup_range _).map
        (by intro a b hab; exact Nat.add_left_cancel hab)
    · exact List.nodup_range _
    · intro a ha1 ha2
      rw [List.mem_map] at ha1
      obtain ⟨j, hj, rfl⟩ := ha1
      rw [List.mem_range] at ha2
      omega

/-- C5 witness: the theorem applied to the wrapped state of capacity 4,
`front = 2`, `length = 3` (live slots 2, 3 and 0, visited in that
order). -/
theorem c5_drop_each_live_slot_exactly_once_witness :
    (dropOrder (⟨[some 5, none, some 3, some 4], 2, 3⟩ : VecRng Nat)).length
      = (⟨[some 5, none, some 3, some 4], 2, 3⟩ : VecRng Nat).length
    ∧ dropOrder (⟨[some 5, none, some 3, some 4], 2, 3⟩ : VecRng Nat)
      = liveIndices (⟨[some 5, none, some 3, some 4], 2, 3⟩ : VecRng Nat)
    ∧ (dropOrder (⟨[some 5, none, some 3, some 4], 2, 3⟩ : VecRng Nat)).Nodup :=
  c5_drop_each_live_slot_exactly_once
    ⟨[some 5, none, some 3, some 4], 2, 3⟩ (by decide)

end VRng
